import Mathlib

/-!
Verification development for the `SQLCluster` coordinator of
`modules/sql/src/cluster.ts`: a shallow embedding of the partition loop,
zero-row table construction, context-token allocation, the streaming
result drain, non-streaming fan-out, and worker-pool lifecycle, together
with theorems settling the specification's claims about them.
-/

namespace SQLC

/-- One iteration step count of the partition loop in
`SQLCluster._createFileTable`:

```
for (let i = this._workers.length; i > 0; i--) {
  chunkedPaths.push(filePath.splice(0, Math.ceil(filePath.length / i)));
}
```

`spliceLoop xs i` runs the loop with `i` remaining workers on the mutable
array state `xs`, returning the list of pushed chunks together with the
final state of the (destructively spliced) caller array.
`Math.ceil(m / i)` on naturals with `i = n + 1` is `(m + n) / (n + 1)`. -/
def spliceLoop {α : Type} : List α → Nat → List (List α) × List α
  | xs, 0 => ([], xs)
  | xs, n + 1 =>
    let k := (xs.length + n) / (n + 1)
    let r := spliceLoop (xs.drop k) n
    (xs.take k :: r.1, r.2)

/-- The chunks pushed by the partition loop (`chunkedPaths` in the source). -/
def chunkPaths {α : Type} (xs : List α) (n : Nat) : List (List α) :=
  (spliceLoop xs n).1

/-- The sizes of the chunks, as a pure arithmetic recursion mirroring
`spliceLoop` on lengths only. -/
def chunkSizes : Nat → Nat → List Nat
  | _, 0 => []
  | m, n + 1 =>
    let k := (m + n) / (n + 1)
    k :: chunkSizes (m - k) n

/-- Result of `parseSchema(input, fileType)` from the native addon
(`ParsedSchema` in `SQLTable.ts`): column names and arrow type tags.
The native type tags are represented abstractly as naturals. -/
structure ParsedSchema where
  names : List String
  types : List Nat
deriving DecidableEq, Repr

/-- A dataframe as far as the cluster layer observes it: named, typed
columns (cudf type tags as naturals) and a row count. -/
structure DataFrameM where
  cols : List (String × Nat)
  rows : Nat
deriving DecidableEq, Repr

/-- One step of the accumulator in
`names.reduce((xs, name, i) => ({...xs, [name]: Series.new(...)}), {})`:
JavaScript object spread keeps the first-insertion key order and overwrites
the value when the key is already present. -/
def jsUpsert (xs : List (String × Nat)) (n : String) (v : Nat) :
    List (String × Nat) :=
  if xs.any (fun p => p.1 == n) then
    xs.map (fun p => if p.1 == n then (n, v) else p)
  else xs ++ [(n, v)]

/-- The whole `reduce` over the (name, converted type) pairs. -/
def buildColsGo : List (String × Nat) → List (String × Nat) → List (String × Nat)
  | acc, [] => acc
  | acc, (n, v) :: rest => buildColsGo (jsUpsert acc n v) rest

/-- The zero-row DataFrame `empty` built in `_createFileTable`:
one column per schema name, each of type `arrowToCUDFType(types[i])`
(the conversion is the abstract parameter `a2c`), with no rows. -/
def emptyDataFrame (a2c : Nat → Nat) (s : ParsedSchema) : DataFrameM :=
  ⟨buildColsGo [] (s.names.zip (s.types.map a2c)), 0⟩

/-- What `_createFileTable` makes one worker do, in the order the workers
are visited by `this._workers.slice().reverse().map(...)`:
either load its nonempty chunk of file paths into the table (`cb`), or
receive the zero-row DataFrame over the channel (`context.send`) and
register it under the same table name. -/
inductive FTAction where
  | loadFiles (table : String) (paths : List String)
  | recvEmpty (table : String) (token : Nat) (message : String) (df : DataFrameM)
deriving DecidableEq, Repr

/-- The per-worker dispatch of `_createFileTable`, threading the module
counter `ctxToken`: an empty chunk increments the counter and uses the
incremented value both in the message id and the send. -/
def ftActionsGo (tableName : String) (empty : DataFrameM) :
    List (List String) → Nat → List FTAction × Nat
  | [], t => ([], t)
  | chunk :: rest, t =>
    if chunk.isEmpty then
      let r := ftActionsGo tableName empty rest (t + 1)
      (FTAction.recvEmpty tableName (t + 1)
          ("broadcast_table_message_" ++ toString (t + 1)) empty :: r.1, r.2)
    else
      let r := ftActionsGo tableName empty rest t
      (FTAction.loadFiles tableName chunk :: r.1, r.2)

/-- `SQLCluster._createFileTable(tableName, filePath, fileType, cb)`:
parse the schema of the full (not yet spliced) path list, build the
zero-row DataFrame, splice the path array into per-worker chunks, and
dispatch one action per worker.  Returns ((actions, final ctxToken),
final contents of the caller's `filePath` array).  `pS` and `a2c` stand
for the native `parseSchema` and `arrowToCUDFType`. -/
def createFileTableM (pS : List String → String → ParsedSchema)
    (a2c : Nat → Nat) (tableName : String) (filePaths : List String)
    (fileType : String) (numWorkers : Nat) (t0 : Nat) :
    (List FTAction × Nat) × List String :=
  let schema := pS filePaths fileType
  let empty := emptyDataFrame a2c schema
  let split := spliceLoop filePaths numWorkers
  (ftActionsGo tableName empty split.1 t0, split.2)

/-- `SQLCluster.createCSVTable` forwards the caller's array to
`_createFileTable` with file type `'csv'`. -/
def createCSVTableM (pS : List String → String → ParsedSchema)
    (a2c : Nat → Nat) (tableName : String) (filePaths : List String)
    (numWorkers t0 : Nat) : (List FTAction × Nat) × List String :=
  createFileTableM pS a2c tableName filePaths "csv" numWorkers t0

/-- `SQLCluster.createParquetTable` forwards to `_createFileTable` with
file type `'parquet'`. -/
def createParquetTableM (pS : List String → String → ParsedSchema)
    (a2c : Nat → Nat) (tableName : String) (filePaths : List String)
    (numWorkers t0 : Nat) : (List FTAction × Nat) × List String :=
  createFileTableM pS a2c tableName filePaths "parquet" numWorkers t0

/-- `SQLCluster.createORCTable` forwards to `_createFileTable` with file
type `'orc'`. -/
def createORCTableM (pS : List String → String → ParsedSchema)
    (a2c : Nat → Nat) (tableName : String) (filePaths : List String)
    (numWorkers t0 : Nat) : (List FTAction × Nat) × List String :=
  createFileTableM pS a2c tableName filePaths "orc" numWorkers t0

/-- The three ways the module counter `ctxToken` is advanced, with the
value each operation observes:
* `bcast w` — `createDataFrameTable`: `ctxToken += W` then broadcasts with
  `ctxToken - W` (the pre-increment value), for `W = this._workers.length`;
* `emptySend` — the empty-chunk branch of `_createFileTable`:
  `ctxToken += 1` then sends with the post-increment value;
* `query` — `sql`: `const token = ctxToken++` (the pre-increment value). -/
inductive TokOp where
  | bcast (w : Nat)
  | emptySend
  | query
deriving DecidableEq, Repr

/-- One allocation step: from counter state `t`, the observed token and
the new counter state. -/
def tokStep : Nat → TokOp → Nat × Nat
  | t, TokOp.bcast w => (t, t + w)
  | t, TokOp.emptySend => (t + 1, t + 1)
  | t, TokOp.query => (t, t + 1)

/-- The sequence of tokens observed by a sequence of operations. -/
def tokTrace : Nat → List TokOp → List Nat
  | _, [] => []
  | t, op :: ops => (tokStep t op).1 :: tokTrace (tokStep t op).2 ops

/-- Operations that observe the pre-increment counter value and advance
the counter by at least one: queries, and broadcasts to at least one
worker.  The empty-chunk send observes the post-increment value instead. -/
def observesOld : TokOp → Bool
  | TokOp.query => true
  | TokOp.bcast w => decide (1 ≤ w)
  | TokOp.emptySend => false

/-- Pick the pending promise that settles first: the element of least
settle time, ties broken towards the front of the array (the order in
which `Promise.race` attaches its reactions).  Returns the chosen element
and the remaining elements in array order. -/
def pickFirstMin {α : Type} : List (Nat × α) → Option ((Nat × α) × List (Nat × α))
  | [] => none
  | x :: xs =>
    match pickFirstMin xs with
    | none => some (x, [])
    | some (y, ys) => if x.1 ≤ y.1 then some (x, xs) else some (y, x :: ys)

/-- The drain loop of `SQLCluster.sql`:

```
while (promises.length > 0) {
  const {dfs, idx} = await Promise.race(...);
  promises.splice(idx, 1);
  yield* dfs;
}
```

Each round awaits the race of the remaining promises (the first to
settle wins) and removes the winner from the pending array.  The fuel is
the initial array length; each round removes exactly one element. -/
def drainGo {α : Type} : Nat → List (Nat × α) → List (Nat × α)
  | 0, _ => []
  | fuel + 1, l =>
    match pickFirstMin l with
    | none => []
    | some (c, r) => c :: drainGo fuel r

/-- The order in which the pending per-worker results are consumed. -/
def drainSeq {α : Type} (l : List (Nat × α)) : List (Nat × α) :=
  drainGo l.length l

/-- The stream of DataFrames yielded by the drain loop when every worker
resolves: `yield* dfs` in consumption order. -/
def drainBatches {β : Type} (ps : List (Nat × List β)) : List β :=
  ((drainSeq ps).map (fun p => p.2)).flatten

/-- Whether a settled promise is a rejection. -/
def isErr {ε α : Type} : Except ε α → Bool
  | Except.error _ => true
  | Except.ok _ => false

/-- The batches of a fulfilled promise (rejections carry none). -/
def okBatches {ε β : Type} : Except ε (List β) → List β
  | Except.ok bs => bs
  | Except.error _ => []

/-- Consume the settled results in settle order: fulfilled results have
their batches yielded; the first rejection makes the `await` throw, so the
generator stops with that error and the later results are never consumed. -/
def takeUntilErr {ε β : Type} :
    List (Nat × Except ε (List β)) → List β × Option ε
  | [] => ([], none)
  | (_, Except.ok bs) :: rest =>
    let r := takeUntilErr rest
    (bs ++ r.1, r.2)
  | (_, Except.error e) :: _ => ([], some e)

/-- The full drain of `SQLCluster.sql` when workers may reject: the
yielded batches, and the error surfaced to the caller, if any. -/
def drainExc {ε β : Type} (ps : List (Nat × Except ε (List β))) :
    List β × Option ε :=
  takeUntilErr (drainSeq ps)

/-- Does `s` start with `pat`? (character-list version of the prefix test
underlying `String.includes`). -/
def startsWithL : List Char → List Char → Bool
  | [], _ => true
  | _ :: _, [] => false
  | p :: ps, c :: cs => p == c && startsWithL ps cs

/-- Substring containment on character lists. -/
def containsSeq : List Char → List Char → Bool
  | [], pat => pat.isEmpty
  | c :: cs, pat => startsWithL pat (c :: cs) || containsSeq cs pat

/-- JavaScript `haystack.includes(needle)`. -/
def jsIncludes (hay needle : String) : Bool :=
  containsSeq hay.data needle.data

/-- The statically-empty sentinel `SQLCluster.sql` looks for in the
logical-plan explanation. -/
def emptySentinel : String := "LogicalValues(tuples=[[]])"

/-- The observable outcome of one `SQLCluster.sql` call: how many workers
received a `worker.sql` dispatch, the yielded batches, and the surfaced
error, if any. -/
structure SqlRun (β ε : Type) where
  dispatched : Nat
  batches : List β
  err : Option ε
deriving DecidableEq, Repr

/-- `SQLCluster.sql(query)`: if the plan explanation contains the
statically-empty sentinel the generator returns at once, dispatching to
no worker; otherwise the query is dispatched to every worker and the
results are drained first-ready-first. -/
def runSql {ε β : Type} (algebra : String)
    (workers : List (Nat × Except ε (List β))) : SqlRun β ε :=
  if jsIncludes algebra emptySentinel then ⟨0, [], none⟩
  else ⟨workers.length, (drainExc workers).1, (drainExc workers).2⟩

/-- The settle time of `Promise.all` when every input fulfills: the last
input to settle. -/
def maxSettle {ε : Type} (ps : List (Nat × Except ε Unit)) : Nat :=
  ps.foldr (fun p m => max p.1 m) 0

/-- `await Promise.all(ps)` over per-worker operations, each modelled by
its settle time and outcome: if every operation fulfills, the combined
promise fulfills when the last one settles; otherwise it rejects with the
first rejection to settle, without waiting for the operations still in
flight. -/
def promiseAll {ε : Type} (ps : List (Nat × Except ε Unit)) :
    Nat × Except ε Unit :=
  match pickFirstMin (ps.filter (fun p => isErr p.2)) with
  | some (c, _) => c
  | none => (maxSettle ps, Except.ok ())

/-- `SQLCluster.dropTable` (and the other non-streaming fan-outs): every
worker runs its own operation regardless of the others, and the
coordinator awaits `Promise.all`.  The second component records, per
worker, whether that worker's side effect happened (it did iff that
worker's own operation succeeded — nothing is rolled back). -/
def dropTableM {ε : Type} (ps : List (Nat × Except ε Unit)) :
    (Nat × Except ε Unit) × List Bool :=
  (promiseAll ps, ps.map (fun p => !(isErr p.2)))

/-- Which concrete class backs a worker handle. -/
inductive WKind where
  | localW
  | remoteW
deriving DecidableEq, Repr

/-- A worker handle as the cluster stores it: its id and its kind. -/
structure WorkerM where
  id : Nat
  kind : WKind
deriving DecidableEq, Repr

/-- The worker pool built by the `SQLCluster` constructor:
`Array.from({length: numWorkers}, (_, i) => i === 0 ? new LocalSQLWorker(id)
: new RemoteSQLWorker(this, id + i, ...)).reverse()`. -/
def mkWorkers (id numWorkers : Nat) : List WorkerM :=
  ((List.range numWorkers).map
    (fun i => ⟨id + i, if i = 0 then WKind.localW else WKind.remoteW⟩)).reverse

/-- `SQLCluster.init`: the constructor is called with
`Math.min(numWorkers, Device.numDevices)` workers. -/
def clusterInit (id requested numDevices : Nat) : List WorkerM :=
  mkWorkers id (min requested numDevices)

/-- The worker list of a live cluster. -/
structure ClusterState where
  workers : List WorkerM
deriving DecidableEq, Repr

/-- `SQLCluster.kill()`: `this._workers.forEach((w) => w.kill());
this._workers.length = 0;` — returns the new state together with the ids
of the handles whose `kill()` was invoked. -/
def killCluster (s : ClusterState) : ClusterState × List Nat :=
  (⟨[]⟩, s.workers.map (fun w => w.id))

/-- `Math.ceil(m / (i+1))` never exceeds `m`. -/
lemma ceil_le (m i : Nat) : (m + i) / (i + 1) ≤ m := by
  have h1 : (m + 1) * (i + 1) = m * i + m + i + 1 := by ring
  have h2 : m + i < (m + 1) * (i + 1) := by
    rw [h1]; omega
  have h3 : (m + i) / (i + 1) < m + 1 :=
    (Nat.div_lt_iff_lt_mul (Nat.succ_pos i)).2 h2
  omega

/-- `m ≤ ceil(m / (i+1)) * (i+1)`. -/
lemma ceil_bound (m i : Nat) : m ≤ ((m + i) / (i + 1)) * (i + 1) := by
  have h1 := Nat.div_add_mod (m + i) (i + 1)
  have h2 : (m + i) % (i + 1) < i + 1 := Nat.mod_lt _ (Nat.succ_pos i)
  have h3 : (i + 1) * ((m + i) / (i + 1)) = ((m + i) / (i + 1)) * (i + 1) :=
    Nat.mul_comm _ _
  omega

/-- After the loop runs with at least one worker, the caller's array is empty:
the final iteration (`i = 1`) splices out `ceil(len / 1) = len` items. -/
lemma spliceLoop_snd {α : Type} :
    ∀ (n : Nat) (xs : List α), 1 ≤ n → (spliceLoop xs n).2 = [] := by
  intro n
  induction n with
  | zero => intro xs h; omega
  | succ n ih =>
    intro xs _
    cases n with
    | zero =>
      simp [spliceLoop]
    | succ n =>
      simp only [spliceLoop]
      exact ih _ (Nat.succ_le_succ (Nat.zero_le n))

/-- With at least one worker the chunks concatenate back to the input:
no path is lost or duplicated. -/
lemma chunkPaths_flatten {α : Type} :
    ∀ (n : Nat) (xs : List α), 1 ≤ n → (chunkPaths xs n).flatten = xs := by
  intro n
  induction n with
  | zero => intro xs h; omega
  | succ n ih =>
    intro xs _
    cases n with
    | zero =>
      simp [chunkPaths, spliceLoop]
    | succ n =>
      have h1 : chunkPaths xs (n + 2) =
          List.take ((xs.length + (n + 1)) / (n + 2)) xs ::
            chunkPaths (List.drop ((xs.length + (n + 1)) / (n + 2)) xs) (n + 1) := rfl
      rw [h1, List.flatten_cons, ih _ (Nat.succ_le_succ (Nat.zero_le n)),
        List.take_append_drop]

/-- The loop pushes exactly one chunk per worker. -/
lemma chunkPaths_length {α : Type} :
    ∀ (n : Nat) (xs : List α), (chunkPaths xs n).length = n := by
  intro n
  induction n with
  | zero => intro xs; rfl
  | succ n ih =>
    intro xs
    show (spliceLoop xs (n + 1)).1.length = n + 1
    simp only [spliceLoop, List.length_cons]
    exact congrArg Nat.succ (ih _)

/-- The chunk sizes are the arithmetic recursion `chunkSizes` on the length. -/
lemma chunkPaths_sizes {α : Type} :
    ∀ (n : Nat) (xs : List α),
      (chunkPaths xs n).map List.length = chunkSizes xs.length n := by
  intro n
  induction n with
  | zero => intro xs; rfl
  | succ n ih =>
    intro xs
    have hk : (xs.length + n) / (n + 1) ≤ xs.length := ceil_le _ _
    have h1 : chunkPaths xs (n + 1) =
        List.take ((xs.length + n) / (n + 1)) xs ::
          chunkPaths (List.drop ((xs.length + n) / (n + 1)) xs) n := rfl
    have h2 : chunkSizes xs.length (n + 1) =
        ((xs.length + n) / (n + 1)) ::
          chunkSizes (xs.length - (xs.length + n) / (n + 1)) n := rfl
    rw [h1, h2, List.map_cons, List.length_take, Nat.min_eq_left hk, ih,
      List.length_drop]

/-- Successive chunk sizes never increase: with `k = ceil(m / (i+1))` we have
`m - k ≤ k * i`, hence the next size `ceil((m-k) / i)` is at most `k`. -/
lemma chunkSizes_chain :
    ∀ (n m : Nat), List.Chain' (fun a b => b ≤ a) (chunkSizes m n) := by
  intro n
  induction n with
  | zero => intro m; simp [chunkSizes]
  | succ n ih =>
    intro m
    cases n with
    | zero => simp [chunkSizes]
    | succ n =>
      have hb : m ≤ ((m + (n + 1)) / (n + 2)) * (n + 2) := ceil_bound m (n + 1)
      have hexp : ((m + (n + 1)) / (n + 2)) * (n + 2)
          = ((m + (n + 1)) / (n + 2)) * (n + 1) + (m + (n + 1)) / (n + 2) := by
        ring
      have hlt : m - (m + (n + 1)) / (n + 2) + n
          < ((m + (n + 1)) / (n + 2) + 1) * (n + 1) := by
        have hexp2 : ((m + (n + 1)) / (n + 2) + 1) * (n + 1)
            = ((m + (n + 1)) / (n + 2)) * (n + 1) + n + 1 := by ring
        omega
      have hdiv : (m - (m + (n + 1)) / (n + 2) + n) / (n + 1)
          < (m + (n + 1)) / (n + 2) + 1 :=
        (Nat.div_lt_iff_lt_mul (show 0 < n + 1 by omega)).2 hlt
      have h1 : chunkSizes m (n + 2)
          = ((m + (n + 1)) / (n + 2))
            :: chunkSizes (m - (m + (n + 1)) / (n + 2)) (n + 1) := rfl
      have h2 : chunkSizes (m - (m + (n + 1)) / (n + 2)) (n + 1)
          = ((m - (m + (n + 1)) / (n + 2) + n) / (n + 1))
            :: chunkSizes (m - (m + (n + 1)) / (n + 2)
                - (m - (m + (n + 1)) / (n + 2) + n) / (n + 1)) n := rfl
      rw [h1, h2]
      refine List.chain'_cons.2 ⟨by omega, ?_⟩
      rw [← h2]
      exact ih _

/-- `pickFirstMin` fails exactly on the empty pending set. -/
lemma pickFirstMin_eq_none {α : Type} :
    ∀ (l : List (Nat × α)), pickFirstMin l = none ↔ l = [] := by
  intro l
  cases l with
  | nil => simp [pickFirstMin]
  | cons x xs =>
    simp only [pickFirstMin]
    cases h : pickFirstMin xs with
    | none => simp
    | some p =>
      obtain ⟨y, ys⟩ := p
      by_cases hxy : x.1 ≤ y.1 <;> simp [hxy]

/-- The chosen element together with the rest is a permutation of the
pending set: the race consumes exactly one pending promise. -/
lemma pickFirstMin_perm {α : Type} :
    ∀ (l : List (Nat × α)) (c : Nat × α) (r : List (Nat × α)),
      pickFirstMin l = some (c, r) → l.Perm (c :: r) := by
  intro l
  induction l with
  | nil => intro c r h; simp [pickFirstMin] at h
  | cons x xs ih =>
    intro c r h
    cases hp : pickFirstMin xs with
    | none =>
      have hx : xs = [] := (pickFirstMin_eq_none xs).1 hp
      subst hx
      simp [pickFirstMin] at h
      obtain ⟨hc, hr⟩ := h
      subst hc; subst hr
      exact List.Perm.refl _
    | some p =>
      obtain ⟨y, ys⟩ := p
      simp only [pickFirstMin, hp] at h
      by_cases hxy : x.1 ≤ y.1
      · simp [hxy] at h
        obtain ⟨hc, hr⟩ := h
        subst hc; subst hr
        exact List.Perm.refl _
      · simp [hxy] at h
        obtain ⟨hc, hr⟩ := h
        subst hc; subst hr
        exact (List.Perm.cons x (ih y ys hp)).trans (List.Perm.swap y x ys)

/-- The chosen element settles no later than anything left pending. -/
lemma pickFirstMin_le {α : Type} :
    ∀ (l : List (Nat × α)) (c : Nat × α) (r : List (Nat × α)),
      pickFirstMin l = some (c, r) → ∀ p ∈ r, c.1 ≤ p.1 := by
  intro l
  induction l with
  | nil => intro c r h; simp [pickFirstMin] at h
  | cons x xs ih =>
    intro c r h p hp
    cases hperm : pickFirstMin xs with
    | none =>
      have hx : xs = [] := (pickFirstMin_eq_none xs).1 hperm
      subst hx
      simp [pickFirstMin] at h
      obtain ⟨hc, hr⟩ := h
      subst hr
      simp at hp
    | some pr =>
      obtain ⟨y, ys⟩ := pr
      simp only [pickFirstMin, hperm] at h
      by_cases hxy : x.1 ≤ y.1
      · simp [hxy] at h
        obtain ⟨hc, hr⟩ := h
        subst hc; subst hr
        have hmem : p ∈ y :: ys := (pickFirstMin_perm xs y ys hperm).mem_iff.1 hp
        cases List.mem_cons.1 hmem with
        | inl hpy => subst hpy; exact hxy
        | inr hpys => exact Nat.le_trans hxy (ih y ys hperm p hpys)
      · simp [hxy] at h
        obtain ⟨hc, hr⟩ := h
        subst hc; subst hr
        cases List.mem_cons.1 hp with
        | inl hpx => subst hpx; omega
        | inr hpys => exact ih y ys hperm p hpys

/-- The drain loop consumes exactly the pending set, each element once. -/
lemma drainGo_perm {α : Type} :
    ∀ (fuel : Nat) (l : List (Nat × α)), l.length ≤ fuel →
      (drainGo fuel l).Perm l := by
  intro fuel
  induction fuel with
  | zero =>
    intro l h
    have hl : l = [] := List.length_eq_zero.1 (Nat.le_zero.1 h)
    subst hl
    exact List.Perm.refl _
  | succ fuel ih =>
    intro l h
    cases hp : pickFirstMin l with
    | none =>
      have hl : l = [] := (pickFirstMin_eq_none l).1 hp
      subst hl
      simp [drainGo, pickFirstMin]
    | some pr =>
      obtain ⟨c, r⟩ := pr
      have hperm := pickFirstMin_perm l c r hp
      have hlen : r.length + 1 = l.length := by
        have := hperm.length_eq
        simp at this
        omega
      have hd : drainGo (fuel + 1) l = c :: drainGo fuel r := by
        simp [drainGo, hp]
      rw [hd]
      exact ((ih r (by omega)).cons c).trans hperm.symm

/-- The drain consumes pending results in order of settle time. -/
lemma drainGo_sorted {α : Type} :
    ∀ (fuel : Nat) (l : List (Nat × α)), l.length ≤ fuel →
      List.Pairwise (fun a b => a.1 ≤ b.1) (drainGo fuel l) := by
  intro fuel
  induction fuel with
  | zero => intro l h; simp [drainGo]
  | succ fuel ih =>
    intro l h
    cases hp : pickFirstMin l with
    | none => simp [drainGo, hp]
    | some pr =>
      obtain ⟨c, r⟩ := pr
      have hperm := pickFirstMin_perm l c r hp
      have hlen : r.length + 1 = l.length := by
        have := hperm.length_eq
        simp at this
        omega
      have hd : drainGo (fuel + 1) l = c :: drainGo fuel r := by
        simp [drainGo, hp]
      rw [hd]
      refine List.pairwise_cons.2 ⟨?_, ih r (by omega)⟩
      intro p hp2
      have hpr : p ∈ r := (drainGo_perm fuel r (by omega)).mem_iff.1 hp2
      exact pickFirstMin_le l c r hp p hpr

/-- Consuming settled results stops at the first rejection: everything
before it is fulfilled and its batches are delivered; the rejection is
surfaced. -/
lemma takeUntilErr_spec {ε β : Type} :
    ∀ (l : List (Nat × Except ε (List β))),
      (∃ p ∈ l, isErr p.2 = true) →
      ∃ pre t e post,
        l = pre ++ (t, Except.error e) :: post ∧
        (∀ q ∈ pre, isErr q.2 = false) ∧
        takeUntilErr l = ((pre.map (fun q => okBatches q.2)).flatten, some e) := by
  intro l
  induction l with
  | nil => intro h; simp at h
  | cons x xs ih =>
    intro h
    obtain ⟨tx, vx⟩ := x
    cases vx with
    | error e =>
      exact ⟨[], tx, e, xs, rfl, by simp, by simp [takeUntilErr]⟩
    | ok bs =>
      have hxs : ∃ p ∈ xs, isErr p.2 = true := by
        obtain ⟨p, hp, hperr⟩ := h
        cases List.mem_cons.1 hp with
        | inl hpx => rw [hpx] at hperr; simp [isErr] at hperr
        | inr hpxs => exact ⟨p, hpxs, hperr⟩
      obtain ⟨pre, t, e, post, heq, hpre, hval⟩ := ih hxs
      refine ⟨(tx, Except.ok bs) :: pre, t, e, post, by rw [heq]; rfl, ?_, ?_⟩
      · intro q hq
        cases List.mem_cons.1 hq with
        | inl hqx => rw [hqx]; rfl
        | inr hqpre => exact hpre q hqpre
      · simp [takeUntilErr, hval, okBatches]

/-- Every token observed from state `t` is at least `t`. -/
lemma tokTrace_lower :
    ∀ (ops : List TokOp) (t : Nat), ∀ x ∈ tokTrace t ops, t ≤ x := by
  intro ops
  induction ops with
  | nil => intro t x hx; simp [tokTrace] at hx
  | cons op ops ih =>
    intro t x hx
    simp only [tokTrace, List.mem_cons] at hx
    cases hx with
    | inl h =>
      subst h
      cases op <;> simp [tokStep]
    | inr h =>
      have h2 := ih (tokStep t op).2 x h
      have h3 : t ≤ (tokStep t op).2 := by
        cases op <;> simp [tokStep]
      omega

/-- Restricted to operations that observe the pre-increment value and
advance the counter, the observed tokens strictly increase. -/
lemma tokTrace_pairwise_lt :
    ∀ (ops : List TokOp) (t : Nat), (∀ op ∈ ops, observesOld op = true) →
      List.Pairwise (fun a b => a < b) (tokTrace t ops) := by
  intro ops
  induction ops with
  | nil => intro t _; simp [tokTrace]
  | cons op ops ih =>
    intro t h
    have hop : observesOld op = true := h op (List.mem_cons_self op ops)
    have hrest := ih (tokStep t op).2
      (fun o ho => h o (List.mem_cons_of_mem op ho))
    refine List.pairwise_cons.2 ⟨?_, hrest⟩
    intro b hb
    have hb2 := tokTrace_lower ops (tokStep t op).2 b hb
    cases op with
    | query => simp [tokStep] at hb2 ⊢; omega
    | emptySend => simp [observesOld] at hop
    | bcast w =>
      have hw : 1 ≤ w := by simpa [observesOld] using hop
      simp [tokStep] at hb2 ⊢
      omega

/-- A key absent from the accumulator fails the `any` test. -/
lemma any_beq_false (xs : List (String × Nat)) (n : String)
    (h : ∀ p ∈ xs, p.1 ≠ n) : xs.any (fun p => p.1 == n) = false := by
  rw [List.any_eq_false]
  intro p hp
  simp [h p hp]

/-- Spreading a fresh key appends it at the end. -/
lemma jsUpsert_fresh (xs : List (String × Nat)) (n : String) (v : Nat)
    (h : ∀ p ∈ xs, p.1 ≠ n) : jsUpsert xs n v = xs ++ [(n, v)] := by
  unfold jsUpsert
  rw [any_beq_false xs n h]
  simp

/-- When all keys are distinct the `reduce` keeps every column, in order. -/
lemma buildColsGo_nodup :
    ∀ (l acc : List (String × Nat)),
      (l.map Prod.fst).Nodup →
      (∀ k ∈ l.map Prod.fst, ∀ p ∈ acc, p.1 ≠ k) →
      buildColsGo acc l = acc ++ l := by
  intro l
  induction l with
  | nil => intro acc _ _; simp [buildColsGo]
  | cons x rest ih =>
    intro acc hnd hdisj
    obtain ⟨n, v⟩ := x
    have hfresh : ∀ p ∈ acc, p.1 ≠ n := fun p hp =>
      hdisj n (by simp) p hp
    have hstep : buildColsGo acc ((n, v) :: rest)
        = buildColsGo (jsUpsert acc n v) rest := rfl
    rw [List.map_cons] at hnd
    have hhead : n ∉ rest.map Prod.fst := (List.nodup_cons.1 hnd).1
    have hnd2 : (rest.map Prod.fst).Nodup := (List.nodup_cons.1 hnd).2
    have hdisj2 : ∀ k ∈ rest.map Prod.fst, ∀ p ∈ acc ++ [(n, v)], p.1 ≠ k := by
      intro k hk p hp
      rcases List.mem_append.1 hp with hpac | hpn
      · exact hdisj k (by simp [hk]) p hpac
      · have hpv : p = (n, v) := by simpa using hpn
        rw [hpv]
        intro hnk
        have hnk2 : n = k := hnk
        rw [← hnk2] at hk
        exact hhead hk
    rw [hstep, jsUpsert_fresh acc n v hfresh, ih (acc ++ [(n, v)]) hnd2 hdisj2,
      List.append_assoc]
    rfl

/-- One action is dispatched per worker. -/
lemma ftActionsGo_length (tableName : String) (empty : DataFrameM) :
    ∀ (chunks : List (List String)) (t : Nat),
      (ftActionsGo tableName empty chunks t).1.length = chunks.length := by
  intro chunks
  induction chunks with
  | nil => intro t; rfl
  | cons c rest ih =>
    intro t
    by_cases hc : c.isEmpty <;> simp [ftActionsGo, hc, ih]

/-- Every dispatched action either loads a nonempty chunk into the table
or registers the zero-row DataFrame under the table name. -/
lemma ftActionsGo_mem (tableName : String) (empty : DataFrameM) :
    ∀ (chunks : List (List String)) (t : Nat) (a : FTAction),
      a ∈ (ftActionsGo tableName empty chunks t).1 →
      (∃ paths, a = FTAction.loadFiles tableName paths ∧ paths ≠ []) ∨
      (∃ tok msg, a = FTAction.recvEmpty tableName tok msg empty) := by
  intro chunks
  induction chunks with
  | nil => intro t a ha; simp [ftActionsGo] at ha
  | cons c rest ih =>
    intro t a ha
    by_cases hc : c.isEmpty
    · simp only [ftActionsGo, hc, if_pos] at ha
      cases List.mem_cons.1 ha with
      | inl h => exact Or.inr ⟨t + 1, _, h⟩
      | inr h => exact ih (t + 1) a h
    · simp only [ftActionsGo, hc, if_neg, Bool.false_eq_true, not_false_iff] at ha
      cases List.mem_cons.1 ha with
      | inl h =>
        refine Or.inl ⟨c, h, ?_⟩
        intro hnil
        rw [hnil] at hc
        exact hc rfl
      | inr h => exact ih t a h

/-- `Promise.all` when every operation fulfills: settle at the latest
worker. -/
lemma promiseAll_all_ok {ε : Type} (ps : List (Nat × Except ε Unit))
    (h : ∀ p ∈ ps, isErr p.2 = false) :
    promiseAll ps = (maxSettle ps, Except.ok ()) := by
  have hf : ps.filter (fun p => isErr p.2) = [] := by
    rw [List.filter_eq_nil_iff]
    intro p hp
    simp [h p hp]
  simp [promiseAll, hf, pickFirstMin]

/-- `Promise.all` with a rejection: the combined promise rejects with the
earliest-settling rejection, at that rejection's settle time. -/
lemma promiseAll_err {ε : Type} (ps : List (Nat × Except ε Unit))
    (h : ∃ p ∈ ps, isErr p.2 = true) :
    ∃ c ∈ ps, isErr c.2 = true ∧ promiseAll ps = c ∧
      ∀ q ∈ ps, isErr q.2 = true → c.1 ≤ q.1 := by
  cases hpick : pickFirstMin (ps.filter (fun p => isErr p.2)) with
  | none =>
    obtain ⟨p, hp, he⟩ := h
    have hmem : p ∈ ps.filter (fun p => isErr p.2) := List.mem_filter.2 ⟨hp, he⟩
    rw [(pickFirstMin_eq_none _).1 hpick] at hmem
    simp at hmem
  | some pr =>
    obtain ⟨c, r⟩ := pr
    have hperm := pickFirstMin_perm _ c r hpick
    have hcmem : c ∈ ps.filter (fun p => isErr p.2) :=
      hperm.mem_iff.2 (List.mem_cons_self c r)
    refine ⟨c, (List.mem_filter.1 hcmem).1, (List.mem_filter.1 hcmem).2, ?_, ?_⟩
    · simp [promiseAll, hpick]
    · intro q hq hqe
      have hqf : q ∈ ps.filter (fun p => isErr p.2) := List.mem_filter.2 ⟨hq, hqe⟩
      cases List.mem_cons.1 (hperm.mem_iff.1 hqf) with
      | inl hqc => rw [hqc]
      | inr hqr => exact pickFirstMin_le _ c r hpick q hqr

/-- C1: for every ordered list of work items and every worker count
`n ≥ 1`, the partitioning loop in `SQLCluster._createFileTable` produces
exactly `n` chunks, taken from the front, of sizes
`ceil(remaining_items / remaining_workers)` (the `chunkSizes` recursion);
the chunks partition the input (concatenating them in order restores the
input exactly, so every item appears in exactly one chunk, with no loss or
duplication), the sizes are non-increasing in iteration order, and for
7 items and 3 workers the sizes are `[3, 2, 2]`. -/
theorem partition_planner_correct {α : Type} (xs : List α) (n : Nat)
    (h : 1 ≤ n) :
    (chunkPaths xs n).length = n ∧
    (chunkPaths xs n).flatten = xs ∧
    (chunkPaths xs n).map List.length = chunkSizes xs.length n ∧
    List.Chain' (fun a b => b ≤ a) ((chunkPaths xs n).map List.length) ∧
    (chunkPaths (List.range 7) 3).map List.length = [3, 2, 2] :=
  ⟨chunkPaths_length n xs, chunkPaths_flatten n xs h, chunkPaths_sizes n xs,
    by rw [chunkPaths_sizes]; exact chunkSizes_chain n xs.length,
    by decide⟩

/-- Witness for C1 at 7 items and 3 workers. -/
theorem partition_planner_correct_witness :
    1 ≤ 3 ∧
    ((chunkPaths (List.range 7) 3).length = 3 ∧
      (chunkPaths (List.range 7) 3).flatten = List.range 7 ∧
      (chunkPaths (List.range 7) 3).map List.length
        = chunkSizes (List.range 7).length 3 ∧
      List.Chain' (fun a b => b ≤ a)
        ((chunkPaths (List.range 7) 3).map List.length) ∧
      (chunkPaths (List.range 7) 3).map List.length = [3, 2, 2]) :=
  ⟨by decide, partition_planner_correct (List.range 7) 3 (by decide)⟩

/-- C2: in `_createFileTable` (hence in `createCSVTable`,
`createParquetTable` and `createORCTable`), every worker participates:
exactly one action per worker is dispatched, and a worker whose chunk is
empty receives, over the channel, a zero-row DataFrame whose column names
are exactly the names returned by `parseSchema` applied to the full,
unsplit path list and whose column types are the corresponding
`arrowToCUDFType`-converted schema types, registered under the same table
name.  (The schema is parsed before the loop splices the array, so it is
the schema of the full source; the hypotheses ask that the parsed schema
be well formed: distinct column names, and as many types as names.) -/
theorem empty_worker_gets_full_schema
    (pS : List String → String → ParsedSchema) (a2c : Nat → Nat)
    (tableName fileType : String) (filePaths : List String) (n t0 : Nat)
    (hnodup : (pS filePaths fileType).names.Nodup)
    (hlen : (pS filePaths fileType).names.length
      = (pS filePaths fileType).types.length) :
    ((createFileTableM pS a2c tableName filePaths fileType n t0).1).1.length
      = n ∧
    ∀ a ∈ ((createFileTableM pS a2c tableName filePaths fileType n t0).1).1,
      (∃ paths, a = FTAction.loadFiles tableName paths ∧ paths ≠ []) ∨
      (∃ tok msg, a = FTAction.recvEmpty tableName tok msg
        ⟨(pS filePaths fileType).names.zip
          ((pS filePaths fileType).types.map a2c), 0⟩) := by
  have hzip : ((pS filePaths fileType).names.zip
      ((pS filePaths fileType).types.map a2c)).map Prod.fst
      = (pS filePaths fileType).names := by
    apply List.map_fst_zip
    rw [List.length_map]
    omega
  have hempty : emptyDataFrame a2c (pS filePaths fileType)
      = ⟨(pS filePaths fileType).names.zip
          ((pS filePaths fileType).types.map a2c), 0⟩ := by
    unfold emptyDataFrame
    rw [buildColsGo_nodup _ [] (by rw [hzip]; exact hnodup) (by simp)]
    rfl
  have hunfold : (createFileTableM pS a2c tableName filePaths fileType n t0).1
      = ftActionsGo tableName (emptyDataFrame a2c (pS filePaths fileType))
          (chunkPaths filePaths n) t0 := rfl
  constructor
  · rw [hunfold, ftActionsGo_length]
    exact chunkPaths_length n filePaths
  · intro a ha
    rw [hunfold, hempty] at ha
    exact ftActionsGo_mem tableName _ (chunkPaths filePaths n) t0 a ha

/-- Witness for C2: two files over three workers; the third worker's chunk
is empty and it receives the zero-row two-column DataFrame. -/
theorem empty_worker_gets_full_schema_witness :
    ((⟨["a", "b"], [5, 6]⟩ : ParsedSchema).names.Nodup ∧
      (⟨["a", "b"], [5, 6]⟩ : ParsedSchema).names.length
        = (⟨["a", "b"], [5, 6]⟩ : ParsedSchema).types.length) ∧
    (((createFileTableM (fun _ _ => ⟨["a", "b"], [5, 6]⟩) (fun t => t + 1)
        "t" ["f1", "f2"] "csv" 3 0).1).1.length = 3 ∧
      ∀ a ∈ ((createFileTableM (fun _ _ => ⟨["a", "b"], [5, 6]⟩)
          (fun t => t + 1) "t" ["f1", "f2"] "csv" 3 0).1).1,
        (∃ paths, a = FTAction.loadFiles "t" paths ∧ paths ≠ []) ∨
        (∃ tok msg, a = FTAction.recvEmpty "t" tok msg
          ⟨((⟨["a", "b"], [5, 6]⟩ : ParsedSchema)).names.zip
            (((⟨["a", "b"], [5, 6]⟩ : ParsedSchema)).types.map
              (fun t => t + 1)), 0⟩)) :=
  ⟨⟨by decide, by decide⟩,
    empty_worker_gets_full_schema (fun _ _ => ⟨["a", "b"], [5, 6]⟩)
      (fun t => t + 1) "t" "csv" ["f1", "f2"] 3 0 (by decide) (by decide)⟩

/-- C3 counterexample: the claim says no two distinct dispatched
operations observe the same token and that observed tokens are strictly
increasing.  But the empty-chunk send of `_createFileTable` observes the
post-increment counter value while `sql` observes the pre-increment value,
so an empty-table send (token 1, counter now 1) followed by a query
(token `ctxToken++` = 1) observes the same token twice. -/
theorem ctxToken_collision_cex :
    tokTrace 0 [TokOp.emptySend, TokOp.query] = [1, 1] ∧
    ¬ List.Pairwise (fun a b => a ≠ b)
        (tokTrace 0 [TokOp.emptySend, TokOp.query]) ∧
    ¬ List.Chain' (fun a b => a < b)
        (tokTrace 0 [TokOp.emptySend, TokOp.query]) := by
  refine ⟨rfl, by decide, ?_⟩
  intro hch
  rw [show tokTrace 0 [TokOp.emptySend, TokOp.query] = [1, 1] from rfl] at hch
  exact absurd (List.chain'_cons.1 hch).1 (by omega)

/-- C3 amended: the counter is advanced by every allocation, and as long
as every operation in the sequence observes the pre-increment value and
advances the counter — i.e. queries, and DataFrame broadcasts to at least
one worker, but not empty-chunk sends (which observe the post-increment
value) — the observed tokens are strictly increasing and pairwise
distinct. -/
theorem ctxToken_amended (t : Nat) (ops : List TokOp)
    (h : ∀ op ∈ ops, observesOld op = true) :
    List.Pairwise (fun a b => a < b) (tokTrace t ops) ∧
    List.Pairwise (fun a b => a ≠ b) (tokTrace t ops) :=
  ⟨tokTrace_pairwise_lt ops t h,
    (tokTrace_pairwise_lt ops t h).imp Nat.ne_of_lt⟩

/-- Witness for the amended C3: a query, a broadcast to two workers and
another query observe tokens 0, 1, 3. -/
theorem ctxToken_amended_witness :
    (∀ op ∈ [TokOp.query, TokOp.bcast 2, TokOp.query],
      observesOld op = true) ∧
    (List.Pairwise (fun a b => a < b)
        (tokTrace 0 [TokOp.query, TokOp.bcast 2, TokOp.query]) ∧
      List.Pairwise (fun a b => a ≠ b)
        (tokTrace 0 [TokOp.query, TokOp.bcast 2, TokOp.query])) :=
  ⟨by decide, ctxToken_amended 0 [TokOp.query, TokOp.bcast 2, TokOp.query]
    (by decide)⟩

/-- C4: the streaming drain of `SQLCluster.sql` consumes pending results
first-ready-first: the consumption order is a permutation of the pending
set (each promise consumed exactly once, and the loop ends exactly when
the pending set is empty), it is sorted by settle time (a worker that
resolves earlier has its DataFrames yielded earlier, regardless of worker
index), and in particular a fast worker B (10ms, one batch) is yielded
before a slow worker A (2000ms): `[b, a]`. -/
theorem sql_stream_arrival_order {β : Type} (ps : List (Nat × List β)) :
    (drainSeq ps).Perm ps ∧
    List.Pairwise (fun a b => a.1 ≤ b.1) (drainSeq ps) ∧
    (drainSeq ps = [] ↔ ps = []) ∧
    ∀ (a b : β), drainBatches [(2000, [a]), (10, [b])] = [b, a] := by
  have hperm : (drainSeq ps).Perm ps := drainGo_perm ps.length ps le_rfl
  refine ⟨hperm, drainGo_sorted ps.length ps le_rfl, ?_, ?_⟩
  · constructor
    · intro h0
      have := hperm.symm
      rw [h0] at this
      exact this.eq_nil
    · intro h0
      subst h0
      rfl
  · intro a b
    rfl

/-- C5: a query whose logical-plan explanation contains the
statically-empty sentinel `LogicalValues(tuples=[[]])` completes with zero
batches, no error, and no `worker.sql` dispatch at all. -/
theorem static_empty_skips_dispatch {ε β : Type} (algebra : String)
    (workers : List (Nat × Except ε (List β)))
    (h : jsIncludes algebra emptySentinel = true) :
    runSql algebra workers = ⟨0, [], none⟩ := by
  simp [runSql, h]

/-- Witness for C5: a plan text containing the sentinel, with one worker
that would have produced a batch. -/
theorem static_empty_skips_dispatch_witness :
    jsIncludes "LogicalSort(fetch=[0]) LogicalValues(tuples=[[]])"
      emptySentinel = true ∧
    runSql (ε := String) (β := Nat)
        "LogicalSort(fetch=[0]) LogicalValues(tuples=[[]])"
        [(5, Except.ok [1])] = ⟨0, [], none⟩ :=
  ⟨by decide, static_empty_skips_dispatch _ [(5, Except.ok [1])] (by decide)⟩

/-- C6 counterexample: the claim says the coordinator waits for every
worker to finish.  `_createFileTable`, `createDataFrameTable` and
`dropTable` await `Promise.all`, which rejects as soon as the first
rejection settles: with worker 1 rejecting at time 1 and worker 2
fulfilling at time 100, the combined operation settles (as a failure) at
time 1 — before worker 2 has finished (`maxSettle` = 100). -/
theorem fanout_no_wait_cex :
    (promiseAll [(1, (Except.error "boom" : Except String Unit)),
        (100, Except.ok ())]).1 = 1 ∧
    maxSettle [(1, (Except.error "boom" : Except String Unit)),
        (100, Except.ok ())] = 100 ∧
    isErr (promiseAll [(1, (Except.error "boom" : Except String Unit)),
        (100, Except.ok ())]).2 = true := by
  refine ⟨?_, ?_, ?_⟩ <;> rfl

/-- C6 amended: the non-streaming fan-out waits for every worker only when
all succeed (it then settles with the last worker); if any worker fails,
the whole operation fails with the earliest-settling rejection, without
waiting for workers still in flight; and the side effect of each worker
happens iff that worker's own operation succeeded — a failure elsewhere
neither prevents nor undoes it (no rollback or compensating action). -/
theorem fanout_amended {ε : Type} (ps : List (Nat × Except ε Unit)) :
    ((∀ p ∈ ps, isErr p.2 = false) →
      promiseAll ps = (maxSettle ps, Except.ok ())) ∧
    ((∃ p ∈ ps, isErr p.2 = true) →
      ∃ c ∈ ps, isErr c.2 = true ∧ promiseAll ps = c ∧
        ∀ q ∈ ps, isErr q.2 = true → c.1 ≤ q.1) ∧
    (dropTableM ps).2 = ps.map (fun p => !(isErr p.2)) :=
  ⟨promiseAll_all_ok ps, promiseAll_err ps, rfl⟩

/-- Witness for the amended C6: two fulfilling workers settle at the later
of the two times and the operation succeeds. -/
theorem fanout_amended_witness :
    (∀ p ∈ [(3, (Except.ok () : Except String Unit)), (7, Except.ok ())],
      isErr p.2 = false) ∧
    promiseAll [(3, (Except.ok () : Except String Unit)), (7, Except.ok ())]
      = (maxSettle [(3, (Except.ok () : Except String Unit)),
          (7, Except.ok ())], Except.ok ()) :=
  ⟨by decide,
    (fanout_amended [(3, (Except.ok () : Except String Unit)),
      (7, Except.ok ())]).1 (by decide)⟩

/-- C7: if some worker's promise rejects, the streaming drain surfaces an
error to the caller: the consumption order splits as fulfilled results,
then the first rejection, then the rest; the generator throws that
rejection's error, and exactly the batches of the workers consumed before
the failure have already been yielded and stay delivered. -/
theorem sql_stream_error_surfaced {ε β : Type}
    (ps : List (Nat × Except ε (List β)))
    (h : ∃ p ∈ ps, isErr p.2 = true) :
    ∃ pre t e post,
      drainSeq ps = pre ++ (t, Except.error e) :: post ∧
      (∀ q ∈ pre, isErr q.2 = false) ∧
      (drainExc ps).2 = some e ∧
      (drainExc ps).1 = (pre.map (fun q => okBatches q.2)).flatten := by
  have hs : ∃ p ∈ drainSeq ps, isErr p.2 = true := by
    obtain ⟨p, hp, he⟩ := h
    exact ⟨p, (drainGo_perm ps.length ps le_rfl).mem_iff.2 hp, he⟩
  obtain ⟨pre, t, e, post, heq, hpre, hval⟩ := takeUntilErr_spec (drainSeq ps) hs
  exact ⟨pre, t, e, post, heq, hpre, by simp [drainExc, hval],
    by simp [drainExc, hval]⟩

/-- Witness for C7: a fast fulfilling worker and a slower rejecting one:
the fast worker's batch is delivered, then the error is surfaced. -/
theorem sql_stream_error_surfaced_witness :
    (∃ p ∈ [(5, (Except.error "boom" : Except String (List Nat))),
        (1, Except.ok [7])], isErr p.2 = true) ∧
    (∃ pre t e post,
      drainSeq [(5, (Except.error "boom" : Except String (List Nat))),
          (1, Except.ok [7])] = pre ++ (t, Except.error e) :: post ∧
      (∀ q ∈ pre, isErr q.2 = false) ∧
      (drainExc [(5, (Except.error "boom" : Except String (List Nat))),
          (1, Except.ok [7])]).2 = some e ∧
      (drainExc [(5, (Except.error "boom" : Except String (List Nat))),
          (1, Except.ok [7])]).1
        = (pre.map (fun q => okBatches q.2)).flatten) :=
  ⟨by decide,
    sql_stream_error_surfaced
      [(5, (Except.error "boom" : Except String (List Nat))),
        (1, Except.ok [7])] (by decide)⟩

/-- C8: `SQLCluster.kill` invokes `kill()` on every worker handle, empties
the worker list, returns nothing else and raises no error (it is a total
function of the state), and a second invocation leaves the cluster state
exactly as after the first while killing no further worker. -/
theorem kill_idempotent (s : ClusterState) :
    (killCluster s).2 = s.workers.map (fun w => w.id) ∧
    (killCluster s).1.workers = [] ∧
    killCluster (killCluster s).1 = ((killCluster s).1, []) :=
  ⟨rfl, rfl, rfl⟩

/-- C9: `SQLCluster.init` creates exactly `min(requested, numDevices)`
worker handles; their ids are the consecutive integers
`id, id + 1, ...` (reversed in the stored array), pairwise distinct, and a
worker is the in-process `LocalSQLWorker` exactly when it carries the base
id; when at least one worker exists, the base-id local worker is present. -/
theorem init_workers (id requested numDevices : Nat) :
    (clusterInit id requested numDevices).length
      = min requested numDevices ∧
    (∀ w ∈ clusterInit id requested numDevices,
      w.kind = WKind.localW ↔ w.id = id) ∧
    (clusterInit id requested numDevices).map (fun w => w.id)
      = ((List.range (min requested numDevices)).map
          (fun i => id + i)).reverse ∧
    ((clusterInit id requested numDevices).map (fun w => w.id)).Nodup ∧
    (1 ≤ min requested numDevices →
      ∃ w ∈ clusterInit id requested numDevices,
        w.kind = WKind.localW ∧ w.id = id) := by
  refine ⟨by simp [clusterInit, mkWorkers], ?_, ?_, ?_, ?_⟩
  · intro w hw
    simp only [clusterInit, mkWorkers, List.mem_reverse, List.mem_map,
      List.mem_range] at hw
    obtain ⟨i, hi, hwi⟩ := hw
    subst hwi
    by_cases h0 : i = 0
    · simp [h0]
    · simp only [h0, if_neg, ite_false]
      constructor
      · intro hk
        exact absurd hk (by simp)
      · intro hk
        omega
  · simp only [clusterInit, mkWorkers, List.map_reverse, List.map_map]
    rfl
  · rw [clusterInit, mkWorkers, List.map_reverse, List.map_map,
      List.nodup_reverse]
    refine List.Nodup.map ?_ (List.nodup_range _)
    intro a b hab
    simp only [Function.comp] at hab
    omega
  · intro h1
    refine ⟨⟨id, WKind.localW⟩, ?_, rfl, rfl⟩
    simp only [clusterInit, mkWorkers, List.mem_reverse, List.mem_map,
      List.mem_range]
    exact ⟨0, by omega, by simp⟩

/-- Witness for C9: base id 4, two workers requested on three devices. -/
theorem init_workers_witness :
    1 ≤ min 2 3 ∧
    ∃ w ∈ clusterInit 4 2 3, w.kind = WKind.localW ∧ w.id = 4 :=
  ⟨by decide, (init_workers 4 2 3).2.2.2.2 (by decide)⟩

/-- C10: `createCSVTable`, `createParquetTable` and `createORCTable` hand
the caller's `filePaths` array to `_createFileTable`, whose loop removes
items from the front of that same array with `splice`; with at least one
worker the final iteration splices out everything left, so after the call
the caller's array is empty. -/
theorem createFileTable_consumes_array
    (pS : List String → String → ParsedSchema) (a2c : Nat → Nat)
    (tableName : String) (filePaths : List String) (n t0 : Nat)
    (h : 1 ≤ n) :
    (createCSVTableM pS a2c tableName filePaths n t0).2 = [] ∧
    (createParquetTableM pS a2c tableName filePaths n t0).2 = [] ∧
    (createORCTableM pS a2c tableName filePaths n t0).2 = [] :=
  ⟨spliceLoop_snd n filePaths h, spliceLoop_snd n filePaths h,
    spliceLoop_snd n filePaths h⟩

/-- Witness for C10: three files across two workers leave the caller's
array empty for all three file formats. -/
theorem createFileTable_consumes_array_witness :
    1 ≤ 2 ∧
    ((createCSVTableM (fun _ _ => ⟨["a"], [5]⟩) (fun t => t)
        "t" ["f1", "f2", "f3"] 2 0).2 = [] ∧
      (createParquetTableM (fun _ _ => ⟨["a"], [5]⟩) (fun t => t)
        "t" ["f1", "f2", "f3"] 2 0).2 = [] ∧
      (createORCTableM (fun _ _ => ⟨["a"], [5]⟩) (fun t => t)
        "t" ["f1", "f2", "f3"] 2 0).2 = []) :=
  ⟨by decide, createFileTable_consumes_array (fun _ _ => ⟨["a"], [5]⟩)
    (fun t => t) "t" ["f1", "f2", "f3"] 2 0 (by decide)⟩

end SQLC

